import Mathlib

/-!
Verification of the J-- compiler (lexer + recursive-descent parser in
`parser.py`, Jasmin code generator in `j-=2.py`).

The Python sources are embedded shallowly:
* tokens are a kind tag plus matched text, as in `parser.py`;
* the lexer models `TOKEN_REGEX.finditer`: at each position the rule
  alternatives are tried in the order of the `TOK` table, the first match
  wins, unmatched characters are skipped silently, and a sentinel `EOF`
  token with empty text is appended (character classes are modelled by
  their ASCII readings of the regex classes `\d`, `\w`, `[A-Za-z_]`);
* the parser's mutually recursive methods become mutually recursive
  functions on the remaining token list, with a fuel parameter standing in
  for the call stack; `raise SyntaxError` becomes `Except.error`;
* the code generator's mutable instance state (`locals`, `next_slot`,
  `lines`, `max_stack_guess`, `lbl`) becomes an explicit record threaded
  through the generation functions; `raise ValueError` / `KeyError`
  becomes `Except.error`.
-/

namespace J

/-- `Token` from parser.py: kind tag `t` and raw matched text `v`. -/
structure Token where
  t : String
  v : String
deriving DecidableEq

/-- The continuation class of the `ID` rule `[A-Za-z_]\w*` (ASCII reading of `\w`). -/
def isWordChar (c : Char) : Bool := c.isAlphanum || c = '_'

/-- The whitespace class of the `WS` rule `[ \t\r\n]+`. -/
def isWsChar (c : Char) : Bool := c = ' ' || c = '\t' || c = '\r' || c = '\n'

/-- One attempt of `TOKEN_REGEX` at the current position `c :: cs`: the rule
alternatives of the `TOK` table are tried in order, the first whose pattern
matches at this position wins, and `INT`/`ID`/`WS` take their maximal run.
Returns the kind and the matched characters, or `none` when no rule matches
(the character is then skipped by the scan loop, as `finditer` does). -/
def matchTok (c : Char) (cs : List Char) : Option (String × List Char) :=
  if c.isDigit then some ("INT", c :: cs.takeWhile Char.isDigit)
  else if c.isAlpha || c = '_' then some ("ID", c :: cs.takeWhile isWordChar)
  else if c = '<' then
    if cs.headD ' ' = '=' then some ("LE", ['<', '=']) else some ("LT", ['<'])
  else if c = '>' then
    if cs.headD ' ' = '=' then some ("GE", ['>', '=']) else some ("GT", ['>'])
  else if c = '=' then
    if cs.headD ' ' = '=' then some ("EQEQ", ['=', '=']) else some ("EQ", ['='])
  else if c = '!' then
    if cs.headD ' ' = '=' then some ("NE", ['!', '=']) else none
  else if c = ';' then some ("SEMIC", [';'])
  else if c = '(' then some ("LP", ['('])
  else if c = ')' then some ("RP", [')'])
  else if c = '\x7b' then some ("LBR", ['\x7b'])
  else if c = '\x7d' then some ("RBR", ['\x7d'])
  else if c = '+' then some ("PLUS", ['+'])
  else if c = '-' then some ("MINUS", ['-'])
  else if c = '*' then some ("MUL", ['*'])
  else if c = '/' then some ("DIV", ['/'])
  else if isWsChar c then some ("WS", c :: cs.takeWhile isWsChar)
  else none

/-- The keyword table `KW` of `lex`. -/
def kwKind (v : String) : Option String :=
  if v = "let" then some "LET"
  else if v = "print" then some "PRINT"
  else if v = "while" then some "WHILE"
  else if v = "if" then some "IF"
  else if v = "else" then some "ELSE"
  else none

/-- The scan loop of `lex`: repeatedly match at the current position,
skipping unmatched characters and whitespace, and relabelling an `ID`
that is a keyword.  The fuel is the remaining character count; each step
consumes at least one character, so `lexLoop cs.length cs` never runs out. -/
def lexLoop : Nat → List Char → List Token
  | 0, _ => []
  | _, [] => []
  | f+1, c :: cs =>
    match matchTok c cs with
    | none => lexLoop f cs
    | some (t, v) =>
      let rest := cs.drop (v.length - 1)
      if t = "WS" then lexLoop f rest
      else
        let s := String.mk v
        let t2 := if t = "ID" then (kwKind s).getD t else t
        Token.mk t2 s :: lexLoop f rest

/-- `lex` from parser.py: scan the whole source and append the sentinel
`EOF` token with empty text. -/
def lex (s : String) : List Token :=
  lexLoop s.data.length s.data ++ [Token.mk "EOF" ""]

/-- Expression nodes of the tuple AST of parser.py (`("Int", v)`,
`("Var", name)`, `("Bin", op, a, b)`, `("Cmp", op, a, b)`); the operator
is the token-kind string exactly as the parser stores it.  `INT` tokens
are runs of digits, so the literal value is a `Nat`. -/
inductive Expr where
  | Int : Nat → Expr
  | Var : String → Expr
  | Bin : String → Expr → Expr → Expr
  | Cmp : String → Expr → Expr → Expr
deriving DecidableEq

/-- Statement nodes of the tuple AST of parser.py (`("Let", name, e)`,
`("Print", e)`, `("While", cond, body)`, `("IfChain", branches, else_block)`). -/
inductive Stmt where
  | Let : String → Expr → Stmt
  | Print : Expr → Stmt
  | While : Expr → List Stmt → Stmt
  | IfChain : List (Expr × List Stmt) → Option (List Stmt) → Stmt

/-- `Parser.cur`: the token at the current position.  The parser only ever
moves forward and stops at the trailing `EOF`, so the current position is
modelled as the remaining token suffix; the default for an empty suffix is
unreachable on lexer output. -/
def cur (toks : List Token) : Token := toks.headD (Token.mk "EOF" "")

/-- `int(v)` on the digit string matched by the `INT` rule. -/
def natOfDigits (s : String) : Nat :=
  s.data.foldl (fun a c => 10 * a + (c.toNat - 48)) 0

/-- `Parser.eat`: check the current token's kind and advance, or fail with
the `SyntaxError` message carrying expected kind and actual kind/text. -/
def eat (kind : String) (toks : List Token) : Except String (List Token) :=
  if (cur toks).t = kind then .ok toks.tail
  else .error ("Expected " ++ kind ++ ", got " ++ (cur toks).t ++ " (" ++ (cur toks).v ++ ")")

mutual

/-- `Parser.expr`. -/
def expr : Nat → List Token → Except String (Expr × List Token)
  | 0, _ => .error "out of fuel"
  | f+1, toks => equality f toks

/-- `Parser.equality`: parse one `relational`, then fold further
`==` / `!=` operands via `equalityLoop`. -/
def equality : Nat → List Token → Except String (Expr × List Token)
  | 0, _ => .error "out of fuel"
  | f+1, toks =>
    match relational f toks with
    | .error e => .error e
    | .ok (node, r) => equalityLoop f node r

/-- The `while self.cur().t in ("EQEQ", "NE")` loop of `Parser.equality`,
with the accumulated node as explicit state. -/
def equalityLoop : Nat → Expr → List Token → Except String (Expr × List Token)
  | 0, node, toks =>
    if (cur toks).t = "EQEQ" || (cur toks).t = "NE" then .error "out of fuel"
    else .ok (node, toks)
  | f+1, node, toks =>
    if (cur toks).t = "EQEQ" || (cur toks).t = "NE" then
      match relational f toks.tail with
      | .error e => .error e
      | .ok (rhs, r) => equalityLoop f (Expr.Cmp (cur toks).t node rhs) r
    else .ok (node, toks)

/-- `Parser.relational`. -/
def relational : Nat → List Token → Except String (Expr × List Token)
  | 0, _ => .error "out of fuel"
  | f+1, toks =>
    match additive f toks with
    | .error e => .error e
    | .ok (node, r) => relationalLoop f node r

/-- The `while self.cur().t in ("LT", "GT", "LE", "GE")` loop of `Parser.relational`. -/
def relationalLoop : Nat → Expr → List Token → Except String (Expr × List Token)
  | 0, node, toks =>
    if (cur toks).t = "LT" || (cur toks).t = "GT" || (cur toks).t = "LE" || (cur toks).t = "GE" then
      .error "out of fuel"
    else .ok (node, toks)
  | f+1, node, toks =>
    if (cur toks).t = "LT" || (cur toks).t = "GT" || (cur toks).t = "LE" || (cur toks).t = "GE" then
      match additive f toks.tail with
      | .error e => .error e
      | .ok (rhs, r) => relationalLoop f (Expr.Cmp (cur toks).t node rhs) r
    else .ok (node, toks)

/-- `Parser.additive`. -/
def additive : Nat → List Token → Except String (Expr × List Token)
  | 0, _ => .error "out of fuel"
  | f+1, toks =>
    match term f toks with
    | .error e => .error e
    | .ok (node, r) => additiveLoop f node r

/-- The `while self.cur().t in ("PLUS", "MINUS")` loop of `Parser.additive`. -/
def additiveLoop : Nat → Expr → List Token → Except String (Expr × List Token)
  | 0, node, toks =>
    if (cur toks).t = "PLUS" || (cur toks).t = "MINUS" then .error "out of fuel"
    else .ok (node, toks)
  | f+1, node, toks =>
    if (cur toks).t = "PLUS" || (cur toks).t = "MINUS" then
      match term f toks.tail with
      | .error e => .error e
      | .ok (rhs, r) => additiveLoop f (Expr.Bin (cur toks).t node rhs) r
    else .ok (node, toks)

/-- `Parser.term`. -/
def term : Nat → List Token → Except String (Expr × List Token)
  | 0, _ => .error "out of fuel"
  | f+1, toks =>
    match factor f toks with
    | .error e => .error e
    | .ok (node, r) => termLoop f node r

/-- The `while self.cur().t in ("MUL", "DIV")` loop of `Parser.term`. -/
def termLoop : Nat → Expr → List Token → Except String (Expr × List Token)
  | 0, node, toks =>
    if (cur toks).t = "MUL" || (cur toks).t = "DIV" then .error "out of fuel"
    else .ok (node, toks)
  | f+1, node, toks =>
    if (cur toks).t = "MUL" || (cur toks).t = "DIV" then
      match factor f toks.tail with
      | .error e => .error e
      | .ok (rhs, r) => termLoop f (Expr.Bin (cur toks).t node rhs) r
    else .ok (node, toks)

/-- `Parser.factor`: `INT`, `ID`, parenthesised expression, or the
`Bad factor` syntax error.  Like the Python (`v = int(self.cur().v)`,
`name = self.cur().v`), the payload is read from the current token before
eating it; `int` on a digit string is `natOfDigits` below. -/
def factor : Nat → List Token → Except String (Expr × List Token)
  | 0, _ => .error "out of fuel"
  | f+1, toks =>
    if (cur toks).t = "INT" then
      match eat "INT" toks with
      | .error e => .error e
      | .ok r => .ok (Expr.Int (natOfDigits (cur toks).v), r)
    else if (cur toks).t = "ID" then
      match eat "ID" toks with
      | .error e => .error e
      | .ok r => .ok (Expr.Var (cur toks).v, r)
    else if (cur toks).t = "LP" then
      match eat "LP" toks with
      | .error e => .error e
      | .ok r1 =>
        match expr f r1 with
        | .error e => .error e
        | .ok (node, r2) =>
          match eat "RP" r2 with
          | .error e => .error e
          | .ok r3 => .ok (node, r3)
    else .error ("Bad factor at Token(" ++ (cur toks).t ++ "," ++ (cur toks).v ++ ")")

/-- `Parser.stmt`: dispatch on the current token kind, or the
`Bad statement` syntax error. -/
def stmt : Nat → List Token → Except String (Stmt × List Token)
  | 0, _ => .error "out of fuel"
  | f+1, toks =>
    if (cur toks).t = "LET" then
      match eat "LET" toks with
      | .error e => .error e
      | .ok r1 =>
        match eat "ID" r1 with
        | .error e => .error e
        | .ok r2 =>
          match eat "EQ" r2 with
          | .error e => .error e
          | .ok r3 =>
            match expr f r3 with
            | .error e => .error e
            | .ok (node, r4) =>
              match eat "SEMIC" r4 with
              | .error e => .error e
              | .ok r5 => .ok (Stmt.Let (cur r1).v node, r5)
    else if (cur toks).t = "PRINT" then
      match eat "PRINT" toks with
      | .error e => .error e
      | .ok r1 =>
        match expr f r1 with
        | .error e => .error e
        | .ok (node, r2) =>
          match eat "SEMIC" r2 with
          | .error e => .error e
          | .ok r3 => .ok (Stmt.Print node, r3)
    else if (cur toks).t = "WHILE" then
      match eat "WHILE" toks with
      | .error e => .error e
      | .ok r1 =>
        match eat "LP" r1 with
        | .error e => .error e
        | .ok r2 =>
          match expr f r2 with
          | .error e => .error e
          | .ok (cond, r3) =>
            match eat "RP" r3 with
            | .error e => .error e
            | .ok r4 =>
              match block f r4 with
              | .error e => .error e
              | .ok (body, r5) => .ok (Stmt.While cond body, r5)
    else if (cur toks).t = "IF" then if_stmt f toks
    else .error ("Bad statement at Token(" ++ (cur toks).t ++ "," ++ (cur toks).v ++ ")")

/-- `Parser.if_stmt`: first `(condition, block)` pair, then the
`else` / `else if` loop. -/
def if_stmt : Nat → List Token → Except String (Stmt × List Token)
  | 0, _ => .error "out of fuel"
  | f+1, toks =>
    match eat "IF" toks with
    | .error e => .error e
    | .ok r1 =>
      match eat "LP" r1 with
      | .error e => .error e
      | .ok r2 =>
        match expr f r2 with
        | .error e => .error e
        | .ok (c0, r3) =>
          match eat "RP" r3 with
          | .error e => .error e
          | .ok r4 =>
            match block f r4 with
            | .error e => .error e
            | .ok (b0, r5) =>
              match ifLoop f [(c0, b0)] r5 with
              | .error e => .error e
              | .ok (branches, elseB, r6) => .ok (Stmt.IfChain branches elseB, r6)

/-- The `while self.cur().t == "ELSE"` loop of `Parser.if_stmt`: an
`else if` appends a branch and continues; a plain `else` parses the else
block and breaks. -/
def ifLoop : Nat → List (Expr × List Stmt) → List Token →
    Except String (List (Expr × List Stmt) × Option (List Stmt) × List Token)
  | 0, branches, toks =>
    if (cur toks).t = "ELSE" then .error "out of fuel"
    else .ok (branches, none, toks)
  | f+1, branches, toks =>
    if (cur toks).t = "ELSE" then
      match eat "ELSE" toks with
      | .error e => .error e
      | .ok r1 =>
        if (cur r1).t = "IF" then
          match eat "IF" r1 with
          | .error e => .error e
          | .ok r2 =>
            match eat "LP" r2 with
            | .error e => .error e
            | .ok r3 =>
              match expr f r3 with
              | .error e => .error e
              | .ok (c, r4) =>
                match eat "RP" r4 with
                | .error e => .error e
                | .ok r5 =>
                  match block f r5 with
                  | .error e => .error e
                  | .ok (b, r6) => ifLoop f (branches ++ [(c, b)]) r6
        else
          match block f r1 with
          | .error e => .error e
          | .ok (b, r2) => .ok (branches, some b, r2)
    else .ok (branches, none, toks)

/-- `Parser.block`: `LBR`, statements until `RBR`, `RBR`. -/
def block : Nat → List Token → Except String (List Stmt × List Token)
  | 0, _ => .error "out of fuel"
  | f+1, toks =>
    match eat "LBR" toks with
    | .error e => .error e
    | .ok r1 => blockLoop f [] r1

/-- The `while self.cur().t != "RBR"` loop of `Parser.block`, with the
accumulated body as explicit state, followed by `eat("RBR")`. -/
def blockLoop : Nat → List Stmt → List Token → Except String (List Stmt × List Token)
  | 0, body, toks =>
    if (cur toks).t = "RBR" then
      match eat "RBR" toks with
      | .error e => .error e
      | .ok r => .ok (body, r)
    else .error "out of fuel"
  | f+1, body, toks =>
    if (cur toks).t = "RBR" then
      match eat "RBR" toks with
      | .error e => .error e
      | .ok r => .ok (body, r)
    else
      match stmt f toks with
      | .error e => .error e
      | .ok (s, r) => blockLoop f (body ++ [s]) r

/-- The `while self.cur().t != "EOF"` loop of `Parser.program`, with the
accumulated statement list as explicit state. -/
def programLoop : Nat → List Stmt → List Token → Except String (List Stmt × List Token)
  | 0, stmts, toks =>
    if (cur toks).t = "EOF" then .ok (stmts, toks)
    else .error "out of fuel"
  | f+1, stmts, toks =>
    if (cur toks).t = "EOF" then .ok (stmts, toks)
    else
      match stmt f toks with
      | .error e => .error e
      | .ok (s, r) => programLoop f (stmts ++ [s]) r

end

/-- `Parser.program`: the statement list of the `("Program", stmts)` node. -/
def program (fuel : Nat) (toks : List Token) : Except String (List Stmt × List Token) :=
  programLoop fuel [] toks

/-- `parse` from parser.py: lex, then parse a whole program. -/
def parse (fuel : Nat) (src : String) : Except String (List Stmt) :=
  match program fuel (lex src) with
  | .error e => .error e
  | .ok (stmts, _) => .ok stmts

/-- The mutable state of a `Codegen` instance in `j-=2.py`: the
variable-to-slot dictionary (an association list in insertion order), the
next free slot, the emitted lines, the fixed stack-size guess, and the
label counter. -/
structure Codegen where
  locals : List (String × Nat)
  next_slot : Nat
  lines : List String
  max_stack_guess : Nat
  lbl : Nat
deriving DecidableEq

/-- `Codegen.__init__`: empty locals, `next_slot = 1` (slot 0 is args),
no lines, `max_stack_guess = 32`, `lbl = 0`. -/
def Codegen.init : Codegen := ⟨[], 1, [], 32, 0⟩

/-- `Codegen.new_label`: increment the counter and mint `base + str(lbl)`. -/
def new_label (g : Codegen) (base : String) : String × Codegen :=
  (base ++ toString (g.lbl + 1), { g with lbl := g.lbl + 1 })

/-- `Codegen.slot_of`: return the slot of `name`, allocating `next_slot`
to it on first encounter. -/
def slot_of (g : Codegen) (name : String) : Nat × Codegen :=
  match g.locals.lookup name with
  | some s => (s, g)
  | none =>
    (g.next_slot,
     { g with locals := g.locals ++ [(name, g.next_slot)], next_slot := g.next_slot + 1 })

/-- `Codegen.emit`: append one line of assembly text. -/
def emit (g : Codegen) (s : String) : Codegen :=
  { g with lines := g.lines ++ [s] }

/-- `Codegen.emit_iload` (slots are `Nat`, so the Python `0 <= slot` guard
of the short form is automatic). -/
def emit_iload (g : Codegen) (slot : Nat) : Codegen :=
  if slot ≤ 3 then emit g ("  iload_" ++ toString slot)
  else emit g ("  iload " ++ toString slot)

/-- `Codegen.emit_istore`. -/
def emit_istore (g : Codegen) (slot : Nat) : Codegen :=
  if slot ≤ 3 then emit g ("  istore_" ++ toString slot)
  else emit g ("  istore " ++ toString slot)

/-- The `jmp` dictionary of the `Cmp` case of `Codegen.gen_expr`;
`none` models the `KeyError` on an operator outside the closed set. -/
def jmpOf (op : String) : Option String :=
  if op = "LT" then some "if_icmplt"
  else if op = "LE" then some "if_icmple"
  else if op = "GT" then some "if_icmpgt"
  else if op = "GE" then some "if_icmpge"
  else if op = "EQEQ" then some "if_icmpeq"
  else if op = "NE" then some "if_icmpne"
  else none

/-- `Codegen.gen_expr`: post-order lowering of an expression onto the
operand stack; unknown operators raise. -/
def gen_expr : Expr → Codegen → Except String Codegen
  | .Int v, g => .ok (emit g ("  sipush " ++ toString v))
  | .Var name, g =>
    let p := slot_of g name
    .ok (emit_iload p.2 p.1)
  | .Bin op a b, g =>
    match gen_expr a g with
    | .error e => .error e
    | .ok g1 =>
      match gen_expr b g1 with
      | .error e => .error e
      | .ok g2 =>
        if op = "PLUS" then .ok (emit g2 "  iadd")
        else if op = "MINUS" then .ok (emit g2 "  isub")
        else if op = "MUL" then .ok (emit g2 "  imul")
        else if op = "DIV" then .ok (emit g2 "  idiv")
        else .error ("Unknown binop " ++ op)
  | .Cmp op a b, g =>
    match gen_expr a g with
    | .error e => .error e
    | .ok g1 =>
      match gen_expr b g1 with
      | .error e => .error e
      | .ok g2 =>
        let pt := new_label g2 "Cmp_true_"
        let pe := new_label pt.2 "Cmp_end_"
        match jmpOf op with
        | none => .error ("Unknown cmp op " ++ op)
        | some jmp =>
          .ok (emit (emit (emit (emit (emit (emit pe.2
                ("  " ++ jmp ++ " " ++ pt.1))
                "  iconst_0")
                ("  goto " ++ pe.1))
                (pt.1 ++ ":"))
                "  iconst_1")
                (pe.1 ++ ":"))

mutual

/-- `Codegen.gen_stmt`: statement lowering; the fuel stands in for the
Python call stack over the nested statement lists. -/
def gen_stmt : Nat → Stmt → Codegen → Except String Codegen
  | 0, _, _ => .error "out of fuel"
  | _+1, .Let name e, g =>
    match gen_expr e g with
    | .error msg => .error msg
    | .ok g1 =>
      let p := slot_of g1 name
      .ok (emit_istore p.2 p.1)
  | _+1, .Print e, g =>
    let g1 := emit g "  getstatic java/lang/System/out Ljava/io/PrintStream;"
    match gen_expr e g1 with
    | .error msg => .error msg
    | .ok g2 => .ok (emit g2 "  invokevirtual java/io/PrintStream/println(I)V")
  | f+1, .While cond body, g =>
    let pt := new_label g "Loop_test_"
    let pe := new_label pt.2 "Loop_end_"
    let g3 := emit pe.2 (pt.1 ++ ":")
    match gen_expr cond g3 with
    | .error msg => .error msg
    | .ok g4 =>
      let g5 := emit g4 ("  ifeq " ++ pe.1)
      match gen_stmts f body g5 with
      | .error msg => .error msg
      | .ok g6 => .ok (emit (emit g6 ("  goto " ++ pt.1)) (pe.1 ++ ":"))
  | f+1, .IfChain branches elseBlock, g =>
    let pe := new_label g "If_end_"
    match gen_branches f branches pe.1 pe.2 with
    | .error msg => .error msg
    | .ok g2 =>
      match elseBlock with
      | none => .ok (emit g2 (pe.1 ++ ":"))
      | some els =>
        match gen_stmts f els g2 with
        | .error msg => .error msg
        | .ok g3 => .ok (emit g3 (pe.1 ++ ":"))

/-- The `for s in body/else_block` loops of `Codegen.gen_stmt`. -/
def gen_stmts : Nat → List Stmt → Codegen → Except String Codegen
  | _, [], g => .ok g
  | 0, _ :: _, _ => .error "out of fuel"
  | f+1, s :: rest, g =>
    match gen_stmt f s g with
    | .error msg => .error msg
    | .ok g1 => gen_stmts f rest g1

/-- The `for (cond, block) in branches` loop of the `IfChain` case of
`Codegen.gen_stmt`; `lend` is the one end label shared by the whole chain. -/
def gen_branches : Nat → List (Expr × List Stmt) → String → Codegen → Except String Codegen
  | _, [], _, g => .ok g
  | 0, _ :: _, _, _ => .error "out of fuel"
  | f+1, (cond, blk) :: rest, lend, g =>
    let pn := new_label g "If_next_"
    match gen_expr cond pn.2 with
    | .error msg => .error msg
    | .ok g2 =>
      let g3 := emit g2 ("  ifeq " ++ pn.1)
      match gen_stmts f blk g3 with
      | .error msg => .error msg
      | .ok g4 => gen_branches f rest lend (emit (emit g4 ("  goto " ++ lend)) (pn.1 ++ ":"))

end

/-- `Codegen.gen`: wrap the statement sequence in the Jasmin boilerplate
of the method on the given generator instance, and join the lines. -/
def gen (fuel : Nat) (g0 : Codegen) (stmts : List Stmt) (class_name : String) :
    Except String String :=
  let g := emit g0 (".class public " ++ class_name)
  let g := emit g ".super java/lang/Object"
  let g := emit g ""
  let g := emit g ".method public <init>()V"
  let g := emit g "  aload_0"
  let g := emit g "  invokespecial java/lang/Object/<init>()V"
  let g := emit g "  return"
  let g := emit g ".end method"
  let g := emit g ""
  let g := emit g ".method public static main([Ljava/lang/String;)V"
  let g := emit g ("  .limit stack " ++ toString g.max_stack_guess)
  let g := emit g "  .limit locals 64"
  match gen_stmts fuel stmts g with
  | .error e => .error e
  | .ok g1 => .ok (String.intercalate "\n" (emit (emit g1 "  return") ".end method").lines)

/-- `compile_to_jasmin`: parse the source and run a fresh `Codegen` on it. -/
def compile_to_jasmin (fuel : Nat) (src : String) (class_name : String) :
    Except String String :=
  match parse fuel src with
  | .error e => .error e
  | .ok stmts => gen fuel Codegen.init stmts class_name

/-! ### Statement-level predicates used by the theorems -/

/-- `a` lies on the left spine of `e`: `e` is `a` itself, or a binary or
comparison node whose left child has `a` on its left spine.  Left-leaning
(left-associative) folding keeps the first operand on the left spine. -/
def onLeftSpine : Expr → Expr → Bool
  | a, Expr.Bin op l r => a == Expr.Bin op l r || onLeftSpine a l
  | a, Expr.Cmp op l r => a == Expr.Cmp op l r || onLeftSpine a l
  | a, e => a == e

/-- The slot table is in first-allocation order with consecutive slots
starting at 1, and `next_slot` is one past the last allocated slot. -/
def slotsSpec (g : Codegen) : Prop :=
  g.locals.map Prod.snd = List.range' 1 g.locals.length ∧
  g.next_slot = g.locals.length + 1

/-- One generator state extends another: lines and locals only grow at the
end, the label counter and slot counter never decrease, the stack guess is
untouched, and well-formed slot tables stay well-formed. -/
def Extends (g g' : Codegen) : Prop :=
  (∃ code, g'.lines = g.lines ++ code) ∧
  (∃ ext, g'.locals = g.locals ++ ext) ∧
  g.lbl ≤ g'.lbl ∧ g.next_slot ≤ g'.next_slot ∧
  g'.max_stack_guess = g.max_stack_guess ∧
  (slotsSpec g → slotsSpec g')

/-! ### Helper lemmas -/

theorem lookup_append_left {l l' : List (String × Nat)} {a : String} {b : Nat}
    (h : l.lookup a = some b) : (l ++ l').lookup a = some b := by
  induction l with
  | nil => simp [List.lookup] at h
  | cons p rest ih =>
    cases p with
    | mk k v =>
      simp only [List.lookup, List.cons_append] at h ⊢
      by_cases hk : a == k
      · simpa [hk] using h
      · simp only [hk] at h ⊢
        · exact ih h

theorem extends_refl (g : Codegen) : Extends g g :=
  ⟨⟨[], by simp⟩, ⟨[], by simp⟩, le_refl _, le_refl _, rfl, fun h => h⟩

theorem extends_trans {g1 g2 g3 : Codegen} (h1 : Extends g1 g2) (h2 : Extends g2 g3) :
    Extends g1 g3 := by
  obtain ⟨⟨c1, hc1⟩, ⟨e1, he1⟩, hl1, hs1, hm1, hw1⟩ := h1
  obtain ⟨⟨c2, hc2⟩, ⟨e2, he2⟩, hl2, hs2, hm2, hw2⟩ := h2
  exact ⟨⟨c1 ++ c2, by simp [hc2, hc1]⟩, ⟨e1 ++ e2, by simp [he2, he1]⟩,
    le_trans hl1 hl2, le_trans hs1 hs2, hm2.trans hm1, fun h => hw2 (hw1 h)⟩

theorem extends_emit (g : Codegen) (s : String) : Extends g (emit g s) :=
  ⟨⟨[s], rfl⟩, ⟨[], by simp [emit]⟩, le_refl _, le_refl _, rfl, fun h => h⟩

theorem extends_new_label (g : Codegen) (base : String) : Extends g (new_label g base).2 :=
  ⟨⟨[], by simp [new_label]⟩, ⟨[], by simp [new_label]⟩, by simp [new_label],
    le_refl _, rfl, fun h => h⟩

theorem range'_concat_one (s n : Nat) : List.range' s (n + 1) = List.range' s n ++ [s + n] := by
  induction n generalizing s with
  | zero => simp [List.range']
  | succ n ih =>
    rw [List.range'_succ, ih (s + 1), List.range'_succ]
    simp [Nat.add_assoc, Nat.add_comm 1 n]

theorem range'_one_concat (n : Nat) : List.range' 1 (n + 1) = List.range' 1 n ++ [n + 1] := by
  have := range'_concat_one 1 n
  simpa [Nat.add_comm] using this

theorem extends_slot_of (g : Codegen) (name : String) : Extends g (slot_of g name).2 := by
  unfold slot_of
  cases h : g.locals.lookup name with
  | some s => exact extends_refl g
  | none =>
    refine ⟨⟨[], by simp⟩, ⟨[(name, g.next_slot)], by simp⟩, le_refl _, by simp,
      rfl, fun hw => ?_⟩
    obtain ⟨h1, h2⟩ := hw
    constructor
    · simp [h1, h2, range'_one_concat]
    · simp [h2]

theorem extends_emit_iload (g : Codegen) (s : Nat) : Extends g (emit_iload g s) := by
  unfold emit_iload
  split <;> exact extends_emit _ _

theorem extends_emit_istore (g : Codegen) (s : Nat) : Extends g (emit_istore g s) := by
  unfold emit_istore
  split <;> exact extends_emit _ _

theorem gen_expr_extends : ∀ (e : Expr) (g g' : Codegen),
    gen_expr e g = .ok g' → Extends g g' := by
  intro e
  induction e with
  | Int v =>
    intro g g' h
    simp only [gen_expr, Except.ok.injEq] at h
    exact h ▸ extends_emit g _
  | Var name =>
    intro g g' h
    simp only [gen_expr, Except.ok.injEq] at h
    exact h ▸ extends_trans (extends_slot_of g name) (extends_emit_iload _ _)
  | Bin op a b iha ihb =>
    intro g g' h
    simp only [gen_expr] at h
    split at h
    · exact absurd h (by simp)
    · rename_i g1 ha
      split at h
      · exact absurd h (by simp)
      · rename_i g2 hb
        have hex : Extends g g2 := extends_trans (iha g g1 ha) (ihb g1 g2 hb)
        repeat' split at h
        all_goals simp only [Except.ok.injEq, reduceCtorEq] at h
        all_goals exact h ▸ extends_trans hex (extends_emit g2 _)
  | Cmp op a b iha ihb =>
    intro g g' h
    simp only [gen_expr] at h
    split at h
    · exact absurd h (by simp)
    · rename_i g1 ha
      split at h
      · exact absurd h (by simp)
      · rename_i g2 hb
        have hex : Extends g g2 := extends_trans (iha g g1 ha) (ihb g1 g2 hb)
        split at h
        · exact absurd h (by simp)
        · rename_i jmp hj
          simp only [Except.ok.injEq] at h
          refine h ▸ extends_trans hex ?_
          refine extends_trans (extends_new_label g2 "Cmp_true_") ?_
          refine extends_trans (extends_new_label _ "Cmp_end_") ?_
          exact extends_trans (extends_emit _ _) (extends_trans (extends_emit _ _)
            (extends_trans (extends_emit _ _) (extends_trans (extends_emit _ _)
              (extends_trans (extends_emit _ _) (extends_emit _ _)))))

theorem gen_stmt_extends_all : ∀ f : Nat,
    (∀ s g g', gen_stmt f s g = .ok g' → Extends g g') ∧
    (∀ l g g', gen_stmts f l g = .ok g' → Extends g g') ∧
    (∀ bs lend g g', gen_branches f bs lend g = .ok g' → Extends g g') := by
  intro f
  induction f with
  | zero =>
    refine ⟨fun s g g' h => absurd h (by simp [gen_stmt]), ?_, ?_⟩
    · intro l g g' h
      cases l with
      | nil =>
        simp only [gen_stmts, Except.ok.injEq] at h
        exact h ▸ extends_refl g
      | cons s rest => exact absurd h (by simp [gen_stmts])
    · intro bs lend g g' h
      cases bs with
      | nil =>
        simp only [gen_branches, Except.ok.injEq] at h
        exact h ▸ extends_refl g
      | cons b rest => exact absurd h (by simp [gen_branches])
  | succ f ih =>
    obtain ⟨ihStmt, ihStmts, ihBranches⟩ := ih
    have hstmt : ∀ s g g', gen_stmt (f+1) s g = .ok g' → Extends g g' := by
      intro s g g' h
      cases s with
      | Let name e =>
        simp only [gen_stmt] at h
        split at h
        · exact absurd h (by simp)
        · rename_i g1 he
          simp only [Except.ok.injEq] at h
          exact h ▸ extends_trans (gen_expr_extends e g g1 he)
            (extends_trans (extends_slot_of g1 name) (extends_emit_istore _ _))
      | Print e =>
        simp only [gen_stmt] at h
        split at h
        · exact absurd h (by simp)
        · rename_i g2 he
          simp only [Except.ok.injEq] at h
          exact h ▸ extends_trans (extends_emit g _)
            (extends_trans (gen_expr_extends e _ g2 he) (extends_emit g2 _))
      | While cond body =>
        simp only [gen_stmt] at h
        split at h
        · exact absurd h (by simp)
        · rename_i g4 hc
          split at h
          · exact absurd h (by simp)
          · rename_i g6 hb
            simp only [Except.ok.injEq] at h
            have h1 := extends_new_label g "Loop_test_"
            have h2 := extends_new_label (new_label g "Loop_test_").2 "Loop_end_"
            have h3 := extends_emit (new_label (new_label g "Loop_test_").2 "Loop_end_").2
              ((new_label g "Loop_test_").1 ++ ":")
            have h4 := gen_expr_extends cond _ g4 hc
            have h5 := extends_emit g4
              ("  ifeq " ++ (new_label (new_label g "Loop_test_").2 "Loop_end_").1)
            have h6 := ihStmts body _ g6 hb
            have h7 := extends_emit g6 ("  goto " ++ (new_label g "Loop_test_").1)
            have h8 := extends_emit (emit g6 ("  goto " ++ (new_label g "Loop_test_").1))
              ((new_label (new_label g "Loop_test_").2 "Loop_end_").1 ++ ":")
            exact h ▸ extends_trans h1 (extends_trans h2 (extends_trans h3 (extends_trans h4
              (extends_trans h5 (extends_trans h6 (extends_trans h7 h8))))))
      | IfChain branches elseBlock =>
        simp only [gen_stmt] at h
        split at h
        · exact absurd h (by simp)
        · rename_i g2 hb
          have hg2 : Extends g g2 :=
            extends_trans (extends_new_label g "If_end_") (ihBranches branches _ _ g2 hb)
          split at h
          · simp only [Except.ok.injEq] at h
            exact h ▸ extends_trans hg2 (extends_emit g2 _)
          · rename_i els
            split at h
            · exact absurd h (by simp)
            · rename_i g3 hel
              simp only [Except.ok.injEq] at h
              exact h ▸ extends_trans hg2
                (extends_trans (ihStmts els g2 g3 hel) (extends_emit g3 _))
    refine ⟨hstmt, ?_, ?_⟩
    · intro l g g' h
      cases l with
      | nil =>
        simp only [gen_stmts, Except.ok.injEq] at h
        exact h ▸ extends_refl g
      | cons s rest =>
        simp only [gen_stmts] at h
        split at h
        · exact absurd h (by simp)
        · rename_i g1 hs
          exact extends_trans (ihStmt s g g1 hs) (ihStmts rest g1 g' h)
    · intro bs lend g g' h
      cases bs with
      | nil =>
        simp only [gen_branches, Except.ok.injEq] at h
        exact h ▸ extends_refl g
      | cons b rest =>
        obtain ⟨cond, blk⟩ := b
        simp only [gen_branches] at h
        split at h
        · exact absurd h (by simp)
        · rename_i g2 hc
          split at h
          · exact absurd h (by simp)
          · rename_i g4 hblk
            have h1 := extends_new_label g "If_next_"
            have h2 := gen_expr_extends cond _ g2 hc
            have h3 := extends_emit g2 ("  ifeq " ++ (new_label g "If_next_").1)
            have h4 := ihStmts blk _ g4 hblk
            have h5 := extends_emit g4 ("  goto " ++ lend)
            have h6 := extends_emit (emit g4 ("  goto " ++ lend))
              ((new_label g "If_next_").1 ++ ":")
            have h7 := ihBranches rest lend _ g' h
            exact extends_trans h1 (extends_trans h2 (extends_trans h3 (extends_trans h4
              (extends_trans h5 (extends_trans h6 h7)))))

theorem gen_stmt_extends (f : Nat) (s : Stmt) (g g' : Codegen)
    (h : gen_stmt f s g = .ok g') : Extends g g' :=
  (gen_stmt_extends_all f).1 s g g' h

theorem gen_stmts_extends (f : Nat) (l : List Stmt) (g g' : Codegen)
    (h : gen_stmts f l g = .ok g') : Extends g g' :=
  (gen_stmt_extends_all f).2.1 l g g' h

theorem gen_branches_extends (f : Nat) (bs : List (Expr × List Stmt)) (lend : String)
    (g g' : Codegen) (h : gen_branches f bs lend g = .ok g') : Extends g g' :=
  (gen_stmt_extends_all f).2.2 bs lend g g' h

theorem cmp_true_ne_cmp_end (s t : String) : "Cmp_true_" ++ s ≠ "Cmp_end_" ++ t := by
  intro h
  have h2 := congrArg String.data h
  rw [String.data_append, String.data_append] at h2
  have e1 : "Cmp_true_".data = ['C','m','p','_','t','r','u','e','_'] := rfl
  have e2 : "Cmp_end_".data = ['C','m','p','_','e','n','d','_'] := rfl
  rw [e1, e2] at h2
  simp at h2

theorem loop_test_ne_loop_end (s t : String) : "Loop_test_" ++ s ≠ "Loop_end_" ++ t := by
  intro h
  have h2 := congrArg String.data h
  rw [String.data_append, String.data_append] at h2
  have e1 : "Loop_test_".data = ['L','o','o','p','_','t','e','s','t','_'] := rfl
  have e2 : "Loop_end_".data = ['L','o','o','p','_','e','n','d','_'] := rfl
  rw [e1, e2] at h2
  simp at h2

theorem equalityLoop_pass (f : Nat) (node : Expr) (toks : List Token)
    (h1 : (cur toks).t ≠ "EQEQ") (h2 : (cur toks).t ≠ "NE") :
    equalityLoop f node toks = .ok (node, toks) := by
  cases f <;> simp [equalityLoop, h1, h2]

theorem relationalLoop_pass (f : Nat) (node : Expr) (toks : List Token)
    (h1 : (cur toks).t ≠ "LT") (h2 : (cur toks).t ≠ "GT")
    (h3 : (cur toks).t ≠ "LE") (h4 : (cur toks).t ≠ "GE") :
    relationalLoop f node toks = .ok (node, toks) := by
  cases f <;> simp [relationalLoop, h1, h2, h3, h4]

theorem additiveLoop_pass (f : Nat) (node : Expr) (toks : List Token)
    (h1 : (cur toks).t ≠ "PLUS") (h2 : (cur toks).t ≠ "MINUS") :
    additiveLoop f node toks = .ok (node, toks) := by
  cases f <;> simp [additiveLoop, h1, h2]

theorem termLoop_pass (f : Nat) (node : Expr) (toks : List Token)
    (h1 : (cur toks).t ≠ "MUL") (h2 : (cur toks).t ≠ "DIV") :
    termLoop f node toks = .ok (node, toks) := by
  cases f <;> simp [termLoop, h1, h2]

theorem onLeftSpine_self (e : Expr) : onLeftSpine e e = true := by
  cases e <;> simp [onLeftSpine]

theorem onLeftSpine_trans (a b c : Expr) (hab : onLeftSpine a b = true)
    (hbc : onLeftSpine b c = true) : onLeftSpine a c = true := by
  induction c with
  | Int v =>
    have hb : b = Expr.Int v := eq_of_beq (by simpa [onLeftSpine] using hbc)
    exact hb ▸ hab
  | Var n =>
    have hb : b = Expr.Var n := eq_of_beq (by simpa [onLeftSpine] using hbc)
    exact hb ▸ hab
  | Bin op l r ihl ihr =>
    simp only [onLeftSpine, Bool.or_eq_true] at hbc
    cases hbc with
    | inl hb => exact (eq_of_beq hb) ▸ hab
    | inr hb =>
      simp only [onLeftSpine, Bool.or_eq_true]
      exact Or.inr (ihl hb)
  | Cmp op l r ihl ihr =>
    simp only [onLeftSpine, Bool.or_eq_true] at hbc
    cases hbc with
    | inl hb => exact (eq_of_beq hb) ▸ hab
    | inr hb =>
      simp only [onLeftSpine, Bool.or_eq_true]
      exact Or.inr (ihl hb)

theorem onLeftSpine_cmp_step (t : String) (node rhs : Expr) :
    onLeftSpine node (Expr.Cmp t node rhs) = true := by
  simp [onLeftSpine, onLeftSpine_self]

theorem onLeftSpine_bin_step (t : String) (node rhs : Expr) :
    onLeftSpine node (Expr.Bin t node rhs) = true := by
  simp [onLeftSpine, onLeftSpine_self]

theorem equalityLoop_leftSpine : ∀ (f : Nat) (node : Expr) (toks : List Token)
    (res : Expr) (rest : List Token),
    equalityLoop f node toks = .ok (res, rest) → onLeftSpine node res = true := by
  intro f
  induction f with
  | zero =>
    intro node toks res rest h
    simp only [equalityLoop] at h
    split at h
    · exact absurd h (by simp)
    · simp only [Except.ok.injEq, Prod.mk.injEq] at h
      exact h.1 ▸ onLeftSpine_self node
  | succ f ih =>
    intro node toks res rest h
    simp only [equalityLoop] at h
    split at h
    · split at h
      · exact absurd h (by simp)
      · rename_i rhs r heq
        exact onLeftSpine_trans node _ res (onLeftSpine_cmp_step _ node rhs) (ih _ _ _ _ h)
    · simp only [Except.ok.injEq, Prod.mk.injEq] at h
      exact h.1 ▸ onLeftSpine_self node

theorem relationalLoop_leftSpine : ∀ (f : Nat) (node : Expr) (toks : List Token)
    (res : Expr) (rest : List Token),
    relationalLoop f node toks = .ok (res, rest) → onLeftSpine node res = true := by
  intro f
  induction f with
  | zero =>
    intro node toks res rest h
    simp only [relationalLoop] at h
    split at h
    · exact absurd h (by simp)
    · simp only [Except.ok.injEq, Prod.mk.injEq] at h
      exact h.1 ▸ onLeftSpine_self node
  | succ f ih =>
    intro node toks res rest h
    simp only [relationalLoop] at h
    split at h
    · split at h
      · exact absurd h (by simp)
      · rename_i rhs r heq
        exact onLeftSpine_trans node _ res (onLeftSpine_cmp_step _ node rhs) (ih _ _ _ _ h)
    · simp only [Except.ok.injEq, Prod.mk.injEq] at h
      exact h.1 ▸ onLeftSpine_self node

theorem additiveLoop_leftSpine : ∀ (f : Nat) (node : Expr) (toks : List Token)
    (res : Expr) (rest : List Token),
    additiveLoop f node toks = .ok (res, rest) → onLeftSpine node res = true := by
  intro f
  induction f with
  | zero =>
    intro node toks res rest h
    simp only [additiveLoop] at h
    split at h
    · exact absurd h (by simp)
    · simp only [Except.ok.injEq, Prod.mk.injEq] at h
      exact h.1 ▸ onLeftSpine_self node
  | succ f ih =>
    intro node toks res rest h
    simp only [additiveLoop] at h
    split at h
    · split at h
      · exact absurd h (by simp)
      · rename_i rhs r heq
        exact onLeftSpine_trans node _ res (onLeftSpine_bin_step _ node rhs) (ih _ _ _ _ h)
    · simp only [Except.ok.injEq, Prod.mk.injEq] at h
      exact h.1 ▸ onLeftSpine_self node

theorem termLoop_leftSpine : ∀ (f : Nat) (node : Expr) (toks : List Token)
    (res : Expr) (rest : List Token),
    termLoop f node toks = .ok (res, rest) → onLeftSpine node res = true := by
  intro f
  induction f with
  | zero =>
    intro node toks res rest h
    simp only [termLoop] at h
    split at h
    · exact absurd h (by simp)
    · simp only [Except.ok.injEq, Prod.mk.injEq] at h
      exact h.1 ▸ onLeftSpine_self node
  | succ f ih =>
    intro node toks res rest h
    simp only [termLoop] at h
    split at h
    · split at h
      · exact absurd h (by simp)
      · rename_i rhs r heq
        exact onLeftSpine_trans node _ res (onLeftSpine_bin_step _ node rhs) (ih _ _ _ _ h)
    · simp only [Except.ok.injEq, Prod.mk.injEq] at h
      exact h.1 ▸ onLeftSpine_self node

/-! ### The claims -/

/-- C1: the code generator assigns slot indices in first-reference order:
`slot_of` leaves an existing binding (and the whole state) unchanged, and
allocates `next_slot` to a new name, bumping the counter by one; a fresh
generator starts allocation at 1 (slot 0 reserved for the arguments); code
generation only ever appends to the slot table (never reuses or frees a
slot) and keeps the slots consecutive from 1 in first-allocation order;
and compiling `let x = x + 1;` does not fail, allocates `x` slot 1 at the
read (`iload_1`), and stores to that same slot (`istore_1`). -/
theorem c1_slot_allocation :
    (∀ (g : Codegen) (name : String) (s : Nat),
       g.locals.lookup name = some s → slot_of g name = (s, g)) ∧
    (∀ (g : Codegen) (name : String),
       g.locals.lookup name = none →
       slot_of g name =
         (g.next_slot,
          { g with locals := g.locals ++ [(name, g.next_slot)],
                   next_slot := g.next_slot + 1 })) ∧
    Codegen.init.next_slot = 1 ∧ slotsSpec Codegen.init ∧
    (∀ (e : Expr) (g g' : Codegen), gen_expr e g = .ok g' →
       (∃ ext, g'.locals = g.locals ++ ext) ∧ (slotsSpec g → slotsSpec g')) ∧
    (∀ (f : Nat) (s : Stmt) (g g' : Codegen), gen_stmt f s g = .ok g' →
       (∃ ext, g'.locals = g.locals ++ ext) ∧ (slotsSpec g → slotsSpec g')) ∧
    compile_to_jasmin 32 "let x = x + 1;" "Main" =
      .ok (String.intercalate "\n"
        [".class public Main", ".super java/lang/Object", "",
         ".method public <init>()V", "  aload_0",
         "  invokespecial java/lang/Object/<init>()V", "  return", ".end method", "",
         ".method public static main([Ljava/lang/String;)V",
         "  .limit stack 32", "  .limit locals 64",
         "  iload_1", "  sipush 1", "  iadd", "  istore_1",
         "  return", ".end method"]) := by
  refine ⟨?_, ?_, rfl, ⟨rfl, rfl⟩, ?_, ?_, ?_⟩
  · intro g name s h
    simp [slot_of, h]
  · intro g name h
    simp [slot_of, h]
  · intro e g g' h
    have hx := gen_expr_extends e g g' h
    exact ⟨hx.2.1, hx.2.2.2.2.2⟩
  · intro f s g g' h
    have hx := gen_stmt_extends f s g g' h
    exact ⟨hx.2.1, hx.2.2.2.2.2⟩
  · rfl

/-- Witness for C1 at concrete inputs: an existing binding `x ↦ 1` is
returned unchanged; a fresh name gets slot `next_slot = 1` of the initial
state; `gen_expr` on `Var "x"` and `gen_stmt` on `let x = 0` only append
to the slot table and preserve its shape. -/
theorem c1_slot_allocation_witness :
    slot_of ⟨[("x", 1)], 2, [], 32, 0⟩ "x" = (1, ⟨[("x", 1)], 2, [], 32, 0⟩) ∧
    slot_of Codegen.init "x" = (1, ⟨[("x", 1)], 2, [], 32, 0⟩) ∧
    ((∃ ext, (⟨[("x", 1)], 2, ["  iload_1"], 32, 0⟩ : Codegen).locals =
        Codegen.init.locals ++ ext) ∧
      (slotsSpec Codegen.init → slotsSpec ⟨[("x", 1)], 2, ["  iload_1"], 32, 0⟩)) ∧
    ((∃ ext, (⟨[("x", 1)], 2, ["  sipush 0", "  istore_1"], 32, 0⟩ : Codegen).locals =
        Codegen.init.locals ++ ext) ∧
      (slotsSpec Codegen.init → slotsSpec ⟨[("x", 1)], 2, ["  sipush 0", "  istore_1"], 32, 0⟩)) :=
  ⟨c1_slot_allocation.1 ⟨[("x", 1)], 2, [], 32, 0⟩ "x" 1 (by rfl),
   c1_slot_allocation.2.1 Codegen.init "x" (by rfl),
   c1_slot_allocation.2.2.2.2.1 (Expr.Var "x") Codegen.init
     ⟨[("x", 1)], 2, ["  iload_1"], 32, 0⟩ (by rfl),
   c1_slot_allocation.2.2.2.2.2.1 1 (Stmt.Let "x" (Expr.Int 0)) Codegen.init
     ⟨[("x", 1)], 2, ["  sipush 0", "  istore_1"], 32, 0⟩ (by rfl)⟩

/-- C2: every binary level parses left-associatively, folding into
left-leaning trees: whenever one of the four operator loops returns, the
node it started from lies on the left spine of the result (each step wraps
the accumulator as the left child).  In particular `a < b == c` parses to
`Cmp(EQEQ, Cmp(LT, Var a, Var b), Var c)`, and the generated code for that
tree fully reduces the inner comparison to its 0/1 value (through label
`Cmp_end_2`) before the outer `if_icmpeq` compares it with `c`. -/
theorem c2_left_assoc :
    expr 20 (lex "a < b == c") =
      .ok (Expr.Cmp "EQEQ" (Expr.Cmp "LT" (Expr.Var "a") (Expr.Var "b")) (Expr.Var "c"),
           [Token.mk "EOF" ""]) ∧
    (∀ (f : Nat) (node res : Expr) (toks rest : List Token),
       equalityLoop f node toks = .ok (res, rest) → onLeftSpine node res = true) ∧
    (∀ (f : Nat) (node res : Expr) (toks rest : List Token),
       relationalLoop f node toks = .ok (res, rest) → onLeftSpine node res = true) ∧
    (∀ (f : Nat) (node res : Expr) (toks rest : List Token),
       additiveLoop f node toks = .ok (res, rest) → onLeftSpine node res = true) ∧
    (∀ (f : Nat) (node res : Expr) (toks rest : List Token),
       termLoop f node toks = .ok (res, rest) → onLeftSpine node res = true) ∧
    gen_expr (Expr.Cmp "EQEQ" (Expr.Cmp "LT" (Expr.Var "a") (Expr.Var "b")) (Expr.Var "c"))
        Codegen.init =
      .ok ⟨[("a", 1), ("b", 2), ("c", 3)], 4,
           ["  iload_1", "  iload_2", "  if_icmplt Cmp_true_1", "  iconst_0",
            "  goto Cmp_end_2", "Cmp_true_1:", "  iconst_1", "Cmp_end_2:",
            "  iload_3", "  if_icmpeq Cmp_true_3", "  iconst_0", "  goto Cmp_end_4",
            "Cmp_true_3:", "  iconst_1", "Cmp_end_4:"], 32, 4⟩ :=
  ⟨rfl,
   fun f node res toks rest h => equalityLoop_leftSpine f node toks res rest h,
   fun f node res toks rest h => relationalLoop_leftSpine f node toks res rest h,
   fun f node res toks rest h => additiveLoop_leftSpine f node toks res rest h,
   fun f node res toks rest h => termLoop_leftSpine f node toks res rest h,
   rfl⟩

/-- Witness for C2: the four loop lemmas applied at concrete runs, e.g.
`equalityLoop` folding `a == b` onto the accumulator `Var "z"`. -/
theorem c2_left_assoc_witness :
    onLeftSpine (Expr.Var "z")
      (Expr.Cmp "EQEQ" (Expr.Var "z") (Expr.Var "b")) = true ∧
    onLeftSpine (Expr.Var "z")
      (Expr.Cmp "LT" (Expr.Var "z") (Expr.Var "b")) = true ∧
    onLeftSpine (Expr.Var "z")
      (Expr.Bin "PLUS" (Expr.Var "z") (Expr.Var "b")) = true ∧
    onLeftSpine (Expr.Var "z")
      (Expr.Bin "MUL" (Expr.Var "z") (Expr.Var "b")) = true :=
  ⟨c2_left_assoc.2.1 9 (Expr.Var "z") _
     [Token.mk "EQEQ" "==", Token.mk "ID" "b", Token.mk "EOF" ""] [Token.mk "EOF" ""] (by rfl),
   c2_left_assoc.2.2.1 9 (Expr.Var "z") _
     [Token.mk "LT" "<", Token.mk "ID" "b", Token.mk "EOF" ""] [Token.mk "EOF" ""] (by rfl),
   c2_left_assoc.2.2.2.1 9 (Expr.Var "z") _
     [Token.mk "PLUS" "+", Token.mk "ID" "b", Token.mk "EOF" ""] [Token.mk "EOF" ""] (by rfl),
   c2_left_assoc.2.2.2.2.1 9 (Expr.Var "z") _
     [Token.mk "MUL" "*", Token.mk "ID" "b", Token.mk "EOF" ""] [Token.mk "EOF" ""] (by rfl)⟩

/-- C3: lowering of a `Cmp` node emits, in order, the left operand's code,
the right operand's code, the conditional branch to the freshly minted
true label, `iconst_0`, `goto` to the freshly minted end label, the true
label, `iconst_1`, and the end label.  The two labels carry the counter
values `lbl + 1` and `lbl + 2` of the state after the operands, are
distinct, and — since the counter never decreases across any generated
expression — distinct from every label minted before or after. -/
theorem c3_cmp_labels :
    (∀ (op : String) (a b : Expr) (g g1 g2 : Codegen) (jmp : String),
       gen_expr a g = .ok g1 → gen_expr b g1 = .ok g2 → jmpOf op = some jmp →
       ∃ codeA codeB,
         g1.lines = g.lines ++ codeA ∧ g2.lines = g1.lines ++ codeB ∧
         gen_expr (Expr.Cmp op a b) g = .ok
           { g2 with
             lbl := g2.lbl + 2,
             lines := g2.lines ++
               ["  " ++ jmp ++ " " ++ ("Cmp_true_" ++ toString (g2.lbl + 1)),
                "  iconst_0",
                "  goto " ++ ("Cmp_end_" ++ toString (g2.lbl + 2)),
                ("Cmp_true_" ++ toString (g2.lbl + 1)) ++ ":",
                "  iconst_1",
                ("Cmp_end_" ++ toString (g2.lbl + 2)) ++ ":"] } ∧
         ("Cmp_true_" ++ toString (g2.lbl + 1)) ≠ ("Cmp_end_" ++ toString (g2.lbl + 2)) ∧
         g.lbl ≤ g1.lbl ∧ g1.lbl ≤ g2.lbl) ∧
    (∀ (e : Expr) (g g' : Codegen), gen_expr e g = .ok g' → g.lbl ≤ g'.lbl) ∧
    (∀ (f : Nat) (s : Stmt) (g g' : Codegen), gen_stmt f s g = .ok g' → g.lbl ≤ g'.lbl) := by
  refine ⟨?_, ?_, ?_⟩
  · intro op a b g g1 g2 jmp ha hb hj
    obtain ⟨⟨codeA, hca⟩, -⟩ := gen_expr_extends a g g1 ha
    obtain ⟨⟨codeB, hcb⟩, -⟩ := gen_expr_extends b g1 g2 hb
    refine ⟨codeA, codeB, hca, hcb, ?_, cmp_true_ne_cmp_end _ _,
      (gen_expr_extends a g g1 ha).2.2.1, (gen_expr_extends b g1 g2 hb).2.2.1⟩
    simp only [gen_expr, ha, hb, hj]
    simp [new_label, emit, List.append_assoc]
  · intro e g g' h
    exact (gen_expr_extends e g g' h).2.2.1
  · intro f s g g' h
    exact (gen_stmt_extends f s g g' h).2.2.1

/-- Witness for C3 at `1 < 2` from a fresh generator: operands push the
two constants, labels `Cmp_true_1` and `Cmp_end_2` are minted. -/
theorem c3_cmp_labels_witness :
    (∃ codeA codeB,
      (⟨[], 1, ["  sipush 1"], 32, 0⟩ : Codegen).lines = Codegen.init.lines ++ codeA ∧
      (⟨[], 1, ["  sipush 1", "  sipush 2"], 32, 0⟩ : Codegen).lines =
        (⟨[], 1, ["  sipush 1"], 32, 0⟩ : Codegen).lines ++ codeB ∧
      gen_expr (Expr.Cmp "LT" (Expr.Int 1) (Expr.Int 2)) Codegen.init = .ok
        { (⟨[], 1, ["  sipush 1", "  sipush 2"], 32, 0⟩ : Codegen) with
          lbl := 0 + 2,
          lines := ["  sipush 1", "  sipush 2"] ++
            ["  " ++ "if_icmplt" ++ " " ++ ("Cmp_true_" ++ toString (0 + 1)),
             "  iconst_0",
             "  goto " ++ ("Cmp_end_" ++ toString (0 + 2)),
             ("Cmp_true_" ++ toString (0 + 1)) ++ ":",
             "  iconst_1",
             ("Cmp_end_" ++ toString (0 + 2)) ++ ":"] } ∧
      ("Cmp_true_" ++ toString (0 + 1)) ≠ ("Cmp_end_" ++ toString (0 + 2)) ∧
      Codegen.init.lbl ≤ 0 ∧ (0 : Nat) ≤ 0) ∧
    Codegen.init.lbl ≤ 2 :=
  ⟨c3_cmp_labels.1 "LT" (Expr.Int 1) (Expr.Int 2) Codegen.init
     ⟨[], 1, ["  sipush 1"], 32, 0⟩ ⟨[], 1, ["  sipush 1", "  sipush 2"], 32, 0⟩
     "if_icmplt" (by rfl) (by rfl) (by rfl),
   c3_cmp_labels.2.1 (Expr.Cmp "LT" (Expr.Int 1) (Expr.Int 2)) Codegen.init
     ⟨[], 1, ["  sipush 1", "  sipush 2", "  if_icmplt Cmp_true_1", "  iconst_0",
              "  goto Cmp_end_2", "Cmp_true_1:", "  iconst_1", "Cmp_end_2:"], 32, 2⟩
     (by rfl)⟩

/-- C4: lowering of an `IfChain` mints one end label for the whole chain
(counter value `lbl + 1`) and hands the same label to every branch; each
branch mints its own fresh next label, emits the condition, `ifeq` to the
next label, the body, `goto` to the shared end label, and the next label;
an else body is emitted after all branches with no trailing jump, and the
end label is emitted last.  On the spec's example program all branch
bodies converge on the single label `If_end_1`. -/
theorem c4_ifchain_shared_end :
    (∀ (f : Nat) (branches : List (Expr × List Stmt)) (elseB : Option (List Stmt))
       (g : Codegen),
       gen_stmt (f+1) (Stmt.IfChain branches elseB) g =
         match gen_branches f branches ("If_end_" ++ toString (g.lbl + 1))
             { g with lbl := g.lbl + 1 } with
         | .error e => .error e
         | .ok g2 =>
           match elseB with
           | none => .ok (emit g2 (("If_end_" ++ toString (g.lbl + 1)) ++ ":"))
           | some els =>
             match gen_stmts f els g2 with
             | .error e => .error e
             | .ok g3 => .ok (emit g3 (("If_end_" ++ toString (g.lbl + 1)) ++ ":"))) ∧
    (∀ (f : Nat) (lend : String) (g : Codegen), gen_branches f [] lend g = .ok g) ∧
    (∀ (f : Nat) (cond : Expr) (blk : List Stmt) (rest : List (Expr × List Stmt))
       (lend : String) (g g2 g4 : Codegen),
       gen_expr cond { g with lbl := g.lbl + 1 } = .ok g2 →
       gen_stmts f blk (emit g2 ("  ifeq " ++ ("If_next_" ++ toString (g.lbl + 1)))) = .ok g4 →
       gen_branches (f+1) ((cond, blk) :: rest) lend g =
         gen_branches f rest lend
           (emit (emit g4 ("  goto " ++ lend)) (("If_next_" ++ toString (g.lbl + 1)) ++ ":")) ∧
       ∃ condCode blkCode,
         g2.lines = g.lines ++ condCode ∧
         (emit (emit g4 ("  goto " ++ lend))
             (("If_next_" ++ toString (g.lbl + 1)) ++ ":")).lines =
           g.lines ++ condCode ++ ["  ifeq " ++ ("If_next_" ++ toString (g.lbl + 1))] ++
             blkCode ++ ["  goto " ++ lend, ("If_next_" ++ toString (g.lbl + 1)) ++ ":"]) ∧
    compile_to_jasmin 64
        "let x = 0;\nif (x) \x7b print 1; \x7d else if (0 == 0) \x7b print 2; \x7d else \x7b print 3; \x7d"
        "Main" =
      .ok (String.intercalate "\n"
        [".class public Main", ".super java/lang/Object", "",
         ".method public <init>()V", "  aload_0",
         "  invokespecial java/lang/Object/<init>()V", "  return", ".end method", "",
         ".method public static main([Ljava/lang/String;)V",
         "  .limit stack 32", "  .limit locals 64",
         "  sipush 0", "  istore_1",
         "  iload_1", "  ifeq If_next_2",
         "  getstatic java/lang/System/out Ljava/io/PrintStream;", "  sipush 1",
         "  invokevirtual java/io/PrintStream/println(I)V",
         "  goto If_end_1", "If_next_2:",
         "  sipush 0", "  sipush 0", "  if_icmpeq Cmp_true_4", "  iconst_0",
         "  goto Cmp_end_5", "Cmp_true_4:", "  iconst_1", "Cmp_end_5:",
         "  ifeq If_next_3",
         "  getstatic java/lang/System/out Ljava/io/PrintStream;", "  sipush 2",
         "  invokevirtual java/io/PrintStream/println(I)V",
         "  goto If_end_1", "If_next_3:",
         "  getstatic java/lang/System/out Ljava/io/PrintStream;", "  sipush 3",
         "  invokevirtual java/io/PrintStream/println(I)V",
         "If_end_1:", "  return", ".end method"]) := by
  refine ⟨?_, ?_, ?_, ?_⟩
  · intro f branches elseB g
    rfl
  · intro f lend g
    cases f <;> rfl
  · intro f cond blk rest lend g g2 g4 hc hb
    constructor
    · simp [gen_branches, new_label, hc, hb]
    · obtain ⟨⟨condCode, hcc⟩, -⟩ := gen_expr_extends cond _ g2 hc
      obtain ⟨⟨blkCode, hbb⟩, -⟩ := gen_stmts_extends f blk _ g4 hb
      refine ⟨condCode, blkCode, by simpa using hcc, ?_⟩
      simp only [emit] at hbb ⊢
      simp at hcc
      simp [hbb, hcc, List.append_assoc]
  · rfl

/-- Witness for C4's branch-step at one concrete branch `(x) { }` from a
fresh generator, with shared end label `"E"`. -/
theorem c4_ifchain_shared_end_witness :
    gen_branches 1 [(Expr.Var "x", [])] "E" Codegen.init =
      gen_branches 0 [] "E"
        (emit (emit ⟨[("x", 1)], 2, ["  iload_1", "  ifeq If_next_1"], 32, 1⟩
            ("  goto " ++ "E"))
          (("If_next_" ++ toString (Codegen.init.lbl + 1)) ++ ":")) ∧
    ∃ condCode blkCode,
      (⟨[("x", 1)], 2, ["  iload_1"], 32, 1⟩ : Codegen).lines =
        Codegen.init.lines ++ condCode ∧
      (emit (emit ⟨[("x", 1)], 2, ["  iload_1", "  ifeq If_next_1"], 32, 1⟩
          ("  goto " ++ "E"))
        (("If_next_" ++ toString (Codegen.init.lbl + 1)) ++ ":")).lines =
        Codegen.init.lines ++ condCode ++
          ["  ifeq " ++ ("If_next_" ++ toString (Codegen.init.lbl + 1))] ++ blkCode ++
          ["  goto " ++ "E", ("If_next_" ++ toString (Codegen.init.lbl + 1)) ++ ":"] :=
  c4_ifchain_shared_end.2.2.1 0 (Expr.Var "x") [] [] "E" Codegen.init
    ⟨[("x", 1)], 2, ["  iload_1"], 32, 1⟩
    ⟨[("x", 1)], 2, ["  iload_1", "  ifeq If_next_1"], 32, 1⟩
    (by rfl) (by rfl)

/-- C5: lowering of a `While` mints exactly the two labels `lbl + 1`
(test) and `lbl + 2` (end), then emits the test label, the condition's
code, `ifeq` to the end label, the body's code, `goto` back to the test
label, and the end label; the two labels are distinct. -/
theorem c5_while_lowering :
    ∀ (f : Nat) (cond : Expr) (body : List Stmt) (g gc gb : Codegen),
      gen_expr cond (emit { g with lbl := g.lbl + 2 }
          (("Loop_test_" ++ toString (g.lbl + 1)) ++ ":")) = .ok gc →
      gen_stmts f body (emit gc ("  ifeq " ++ ("Loop_end_" ++ toString (g.lbl + 2)))) = .ok gb →
      gen_stmt (f+1) (Stmt.While cond body) g =
        .ok (emit (emit gb ("  goto " ++ ("Loop_test_" ++ toString (g.lbl + 1))))
          (("Loop_end_" ++ toString (g.lbl + 2)) ++ ":")) ∧
      (∃ condCode bodyCode,
        gc.lines = g.lines ++ [("Loop_test_" ++ toString (g.lbl + 1)) ++ ":"] ++ condCode ∧
        gb.lines = gc.lines ++ ["  ifeq " ++ ("Loop_end_" ++ toString (g.lbl + 2))] ++ bodyCode ∧
        (emit (emit gb ("  goto " ++ ("Loop_test_" ++ toString (g.lbl + 1))))
            (("Loop_end_" ++ toString (g.lbl + 2)) ++ ":")).lines =
          g.lines ++ [("Loop_test_" ++ toString (g.lbl + 1)) ++ ":"] ++ condCode ++
            ["  ifeq " ++ ("Loop_end_" ++ toString (g.lbl + 2))] ++ bodyCode ++
            ["  goto " ++ ("Loop_test_" ++ toString (g.lbl + 1)),
             ("Loop_end_" ++ toString (g.lbl + 2)) ++ ":"]) ∧
      ("Loop_test_" ++ toString (g.lbl + 1)) ≠ ("Loop_end_" ++ toString (g.lbl + 2)) ∧
      new_label g "Loop_test_" =
        ("Loop_test_" ++ toString (g.lbl + 1), { g with lbl := g.lbl + 1 }) ∧
      new_label { g with lbl := g.lbl + 1 } "Loop_end_" =
        ("Loop_end_" ++ toString (g.lbl + 2), { g with lbl := g.lbl + 2 }) := by
  intro f cond body g gc gb hc hb
  refine ⟨?_, ?_, loop_test_ne_loop_end _ _, rfl, rfl⟩
  · simp [gen_stmt, new_label, Nat.add_assoc, hc, hb]
  · obtain ⟨⟨condCode, hcc⟩, -⟩ := gen_expr_extends cond _ gc hc
    obtain ⟨⟨bodyCode, hbb⟩, -⟩ := gen_stmts_extends f body _ gb hb
    refine ⟨condCode, bodyCode, ?_, ?_, ?_⟩
    · simp only [emit] at hcc
      simpa [List.append_assoc] using hcc
    · simp only [emit] at hbb
      simpa [List.append_assoc] using hbb
    · simp only [emit] at hcc hbb ⊢
      simp at hcc
      simp [hbb, hcc, List.append_assoc]

/-- Witness for C5 at the loop `while (x) { }` from a fresh generator:
labels `Loop_test_1` and `Loop_end_2` are minted and emitted around the
condition's `iload_1`. -/
theorem c5_while_lowering_witness :
    gen_stmt 1 (Stmt.While (Expr.Var "x") []) Codegen.init =
      .ok (emit (emit ⟨[("x", 1)], 2, ["Loop_test_1:", "  iload_1", "  ifeq Loop_end_2"], 32, 2⟩
        ("  goto " ++ ("Loop_test_" ++ toString (Codegen.init.lbl + 1))))
        (("Loop_end_" ++ toString (Codegen.init.lbl + 2)) ++ ":")) ∧
    (∃ condCode bodyCode,
      (⟨[("x", 1)], 2, ["Loop_test_1:", "  iload_1"], 32, 2⟩ : Codegen).lines =
        Codegen.init.lines ++
          [("Loop_test_" ++ toString (Codegen.init.lbl + 1)) ++ ":"] ++ condCode ∧
      (⟨[("x", 1)], 2, ["Loop_test_1:", "  iload_1", "  ifeq Loop_end_2"], 32, 2⟩ : Codegen).lines =
        (⟨[("x", 1)], 2, ["Loop_test_1:", "  iload_1"], 32, 2⟩ : Codegen).lines ++
          ["  ifeq " ++ ("Loop_end_" ++ toString (Codegen.init.lbl + 2))] ++ bodyCode ∧
      (emit (emit ⟨[("x", 1)], 2, ["Loop_test_1:", "  iload_1", "  ifeq Loop_end_2"], 32, 2⟩
          ("  goto " ++ ("Loop_test_" ++ toString (Codegen.init.lbl + 1))))
          (("Loop_end_" ++ toString (Codegen.init.lbl + 2)) ++ ":")).lines =
        Codegen.init.lines ++
          [("Loop_test_" ++ toString (Codegen.init.lbl + 1)) ++ ":"] ++ condCode ++
          ["  ifeq " ++ ("Loop_end_" ++ toString (Codegen.init.lbl + 2))] ++ bodyCode ++
          ["  goto " ++ ("Loop_test_" ++ toString (Codegen.init.lbl + 1)),
           ("Loop_end_" ++ toString (Codegen.init.lbl + 2)) ++ ":"]) ∧
    ("Loop_test_" ++ toString (Codegen.init.lbl + 1)) ≠
      ("Loop_end_" ++ toString (Codegen.init.lbl + 2)) ∧
    new_label Codegen.init "Loop_test_" =
      ("Loop_test_" ++ toString (Codegen.init.lbl + 1),
       { Codegen.init with lbl := Codegen.init.lbl + 1 }) ∧
    new_label { Codegen.init with lbl := Codegen.init.lbl + 1 } "Loop_end_" =
      ("Loop_end_" ++ toString (Codegen.init.lbl + 2),
       { Codegen.init with lbl := Codegen.init.lbl + 2 }) :=
  c5_while_lowering 0 (Expr.Var "x") [] Codegen.init
    ⟨[("x", 1)], 2, ["Loop_test_1:", "  iload_1"], 32, 2⟩
    ⟨[("x", 1)], 2, ["Loop_test_1:", "  iload_1", "  ifeq Loop_end_2"], 32, 2⟩
    (by rfl) (by rfl)

/-- C6 counterexample: the claim says the expression's instructions come
first, with no print-sequence instruction before them.  But on
`print 1;` the generator emits the receiver push
`getstatic java/lang/System/out` — part of the print sequence (cited
lines 100–102 of j-=2.py) — *before* the expression's `sipush 1`, so the
emitted list is not the expression code followed by the print sequence. -/
theorem c6_print_counterexample :
    gen_stmt 1 (Stmt.Print (Expr.Int 1)) Codegen.init =
      .ok ⟨[], 1,
           ["  getstatic java/lang/System/out Ljava/io/PrintStream;",
            "  sipush 1",
            "  invokevirtual java/io/PrintStream/println(I)V"], 32, 0⟩ ∧
    gen_expr (Expr.Int 1) Codegen.init = .ok ⟨[], 1, ["  sipush 1"], 32, 0⟩ ∧
    ["  getstatic java/lang/System/out Ljava/io/PrintStream;",
     "  sipush 1",
     "  invokevirtual java/io/PrintStream/println(I)V"] ≠
      ["  sipush 1"] ++
        ["  getstatic java/lang/System/out Ljava/io/PrintStream;",
         "  invokevirtual java/io/PrintStream/println(I)V"] :=
  ⟨rfl, rfl, by decide⟩

/-- C6 (amended): for every `Print` statement the generator emits the
receiver push `getstatic java/lang/System/out` first, then the
instructions evaluating the printed expression, then the
`invokevirtual println` call — the print sequence brackets the
expression's code instead of wholly following it. -/
theorem c6_print_lowering :
    ∀ (f : Nat) (e : Expr) (g g2 : Codegen),
      gen_expr e (emit g "  getstatic java/lang/System/out Ljava/io/PrintStream;") = .ok g2 →
      gen_stmt (f+1) (Stmt.Print e) g =
        .ok (emit g2 "  invokevirtual java/io/PrintStream/println(I)V") ∧
      ∃ exprCode,
        g2.lines = g.lines ++ ["  getstatic java/lang/System/out Ljava/io/PrintStream;"] ++
          exprCode ∧
        (emit g2 "  invokevirtual java/io/PrintStream/println(I)V").lines =
          g.lines ++ ["  getstatic java/lang/System/out Ljava/io/PrintStream;"] ++ exprCode ++
            ["  invokevirtual java/io/PrintStream/println(I)V"] := by
  intro f e g g2 he
  constructor
  · simp [gen_stmt, he]
  · obtain ⟨⟨exprCode, hec⟩, -⟩ := gen_expr_extends e _ g2 he
    refine ⟨exprCode, ?_, ?_⟩
    · simp only [emit] at hec
      simpa [List.append_assoc] using hec
    · simp only [emit] at hec ⊢
      simp [hec, List.append_assoc]

/-- Witness for the amended C6 at `print 7;` from a fresh generator. -/
theorem c6_print_lowering_witness :
    gen_stmt 1 (Stmt.Print (Expr.Int 7)) Codegen.init =
      .ok (emit ⟨[], 1, ["  getstatic java/lang/System/out Ljava/io/PrintStream;",
                         "  sipush 7"], 32, 0⟩
        "  invokevirtual java/io/PrintStream/println(I)V") ∧
    ∃ exprCode,
      (⟨[], 1, ["  getstatic java/lang/System/out Ljava/io/PrintStream;",
                "  sipush 7"], 32, 0⟩ : Codegen).lines =
        Codegen.init.lines ++ ["  getstatic java/lang/System/out Ljava/io/PrintStream;"] ++
          exprCode ∧
      (emit ⟨[], 1, ["  getstatic java/lang/System/out Ljava/io/PrintStream;",
                     "  sipush 7"], 32, 0⟩
          "  invokevirtual java/io/PrintStream/println(I)V").lines =
        Codegen.init.lines ++ ["  getstatic java/lang/System/out Ljava/io/PrintStream;"] ++
          exprCode ++ ["  invokevirtual java/io/PrintStream/println(I)V"] :=
  c6_print_lowering 0 (Expr.Int 7) Codegen.init
    ⟨[], 1, ["  getstatic java/lang/System/out Ljava/io/PrintStream;", "  sipush 7"], 32, 0⟩
    (by rfl)

/-- C7: `eat` fails exactly at the first token whose kind differs from the
expected kind, with an error carrying the expected kind and the actual
kind and text, and succeeds (advancing one token) otherwise; errors
propagate with no recovery, so `let x = ;` aborts at the `;` (where a
value-producing factor was expected) with the parser's `Bad factor`
diagnostic and yields no AST. -/
theorem c7_fail_fast :
    (∀ (kind : String) (toks : List Token), (cur toks).t ≠ kind →
       eat kind toks = .error
         ("Expected " ++ kind ++ ", got " ++ (cur toks).t ++ " (" ++ (cur toks).v ++ ")")) ∧
    (∀ (kind : String) (toks : List Token), (cur toks).t = kind →
       eat kind toks = .ok toks.tail) ∧
    parse 20 "let x = ;" = .error "Bad factor at Token(SEMIC,;)" := by
  refine ⟨?_, ?_, rfl⟩
  · intro kind toks h
    simp [eat, h]
  · intro kind toks h
    simp [eat, h]

/-- Witness for C7: a mismatching and a matching `eat` on the token `;`. -/
theorem c7_fail_fast_witness :
    eat "INT" [Token.mk "SEMIC" ";"] =
      .error ("Expected " ++ "INT" ++ ", got " ++ (cur [Token.mk "SEMIC" ";"]).t ++
        " (" ++ (cur [Token.mk "SEMIC" ";"]).v ++ ")") ∧
    eat "SEMIC" [Token.mk "SEMIC" ";"] = .ok ([Token.mk "SEMIC" ";"] : List Token).tail :=
  ⟨c7_fail_fast.1 "INT" [Token.mk "SEMIC" ";"] (by decide),
   c7_fail_fast.2.1 "SEMIC" [Token.mk "SEMIC" ";"] (by decide)⟩

/-- C8: the lexer is total — it returns a token list for every input
(never an error), a position where no rule matches is skipped without
producing a token, and the returned sequence always ends in the sentinel
`EOF` token with empty text (e.g. `lex "?"` is just the sentinel). -/
theorem c8_lexer_skip :
    (∀ s : String, (lex s).getLast? = some (Token.mk "EOF" "")) ∧
    (∀ (f : Nat) (c : Char) (cs : List Char),
       matchTok c cs = none → lexLoop (f+1) (c :: cs) = lexLoop f cs) ∧
    lex "?" = [Token.mk "EOF" ""] := by
  refine ⟨?_, ?_, rfl⟩
  · intro s
    unfold lex
    exact List.getLast?_concat _
  · intro f c cs h
    simp [lexLoop, h]

/-- Witness for C8: the unmatched character `?` is skipped producing no
token, and `lex "@"` still ends in the sentinel. -/
theorem c8_lexer_skip_witness :
    lexLoop 1 ['?'] = lexLoop 0 [] ∧
    (lex "@").getLast? = some (Token.mk "EOF" "") :=
  ⟨c8_lexer_skip.2.1 0 '?' [] (by rfl), c8_lexer_skip.1 "@"⟩

/-- C9: compilation is deterministic — the pipeline is a pure function of
the source text, and `compile_to_jasmin` runs `gen` on a freshly
initialised generator, so two runs with fresh generators on the same
program produce identical output (labels and slots included). -/
theorem c9_determinism :
    (∀ (fuel : Nat) (stmts : List Stmt) (cls : String) (g1 g2 : Codegen),
       g1 = Codegen.init → g2 = Codegen.init →
       gen fuel g1 stmts cls = gen fuel g2 stmts cls) ∧
    (∀ (fuel : Nat) (src cls : String),
       compile_to_jasmin fuel src cls = compile_to_jasmin fuel src cls) := by
  refine ⟨?_, fun _ _ _ => rfl⟩
  intro fuel stmts cls g1 g2 h1 h2
  rw [h1, h2]

/-- Witness for C9 on a one-statement program with two fresh generators. -/
theorem c9_determinism_witness :
    gen 8 Codegen.init [Stmt.Print (Expr.Int 1)] "Main" =
      gen 8 Codegen.init [Stmt.Print (Expr.Int 1)] "Main" ∧
    compile_to_jasmin 8 "print 1;" "Main" = compile_to_jasmin 8 "print 1;" "Main" :=
  ⟨c9_determinism.1 8 [Stmt.Print (Expr.Int 1)] "Main" Codegen.init Codegen.init rfl rfl,
   c9_determinism.2 8 "print 1;" "Main"⟩

theorem expr_paren_step (F : Nat) (ts : List Token) (e : Expr) (r : List Token)
    (h : expr F ts = .ok (e, Token.mk "RP" ")" :: r)) (hr : (cur r).t = "RP") :
    expr (F + 6) (Token.mk "LP" "(" :: ts) = .ok (e, r) := by
  have hfac : factor (F + 1) (Token.mk "LP" "(" :: ts) = .ok (e, r) := by
    simp [factor, cur, eat, h]
  have hterm : term (F + 2) (Token.mk "LP" "(" :: ts) = .ok (e, r) := by
    rw [show F + 2 = (F + 1) + 1 from rfl]
    simp only [term, hfac]
    exact termLoop_pass (F + 1) e r (by simp [hr]) (by simp [hr])
  have hadd : additive (F + 3) (Token.mk "LP" "(" :: ts) = .ok (e, r) := by
    rw [show F + 3 = (F + 2) + 1 from rfl]
    simp only [additive, hterm]
    exact additiveLoop_pass (F + 2) e r (by simp [hr]) (by simp [hr])
  have hrel : relational (F + 4) (Token.mk "LP" "(" :: ts) = .ok (e, r) := by
    rw [show F + 4 = (F + 3) + 1 from rfl]
    simp only [relational, hadd]
    exact relationalLoop_pass (F + 3) e r (by simp [hr]) (by simp [hr]) (by simp [hr])
      (by simp [hr])
  have heq : equality (F + 5) (Token.mk "LP" "(" :: ts) = .ok (e, r) := by
    rw [show F + 5 = (F + 4) + 1 from rfl]
    simp only [equality, hrel]
    exact equalityLoop_pass (F + 4) e r (by simp [hr]) (by simp [hr])
  rw [show F + 6 = (F + 5) + 1 from rfl]
  simp only [expr, heq]

/-- C10: a parenthesised expression in factor position returns exactly the
inner expression's AST with no wrapper node — `factor` on `'(' toks` gives
the very tree that `expr` gives on `toks` — and nested redundant
parentheses erase likewise; hence `(e)` and `e` generate identical
instruction sequences, e.g. `print ((5));` and `print 5;` compile to
byte-identical assembly. -/
theorem c10_paren_identity :
    (∀ (f : Nat) (toks : List Token) (e : Expr) (r2 : List Token) (lp : Token),
       lp.t = "LP" → expr f toks = .ok (e, r2) → (cur r2).t = "RP" →
       factor (f+1) (lp :: toks) = .ok (e, r2.tail)) ∧
    (∀ (n f : Nat) (toks : List Token) (e : Expr) (rest : List Token),
       expr f toks =
         .ok (e, List.replicate n (Token.mk "RP" ")") ++ (Token.mk "RP" ")" :: rest)) →
       expr (f + 6 * n) (List.replicate n (Token.mk "LP" "(") ++ toks) =
         .ok (e, Token.mk "RP" ")" :: rest)) ∧
    expr 20 (lex "((5))") = .ok (Expr.Int 5, [Token.mk "EOF" ""]) ∧
    expr 20 (lex "5") = .ok (Expr.Int 5, [Token.mk "EOF" ""]) ∧
    compile_to_jasmin 20 "print ((5));" "Main" = compile_to_jasmin 20 "print 5;" "Main" := by
  refine ⟨?_, ?_, rfl, rfl, rfl⟩
  · intro f toks e r2 lp hlp h hr
    simp only [cur] at hr
    simp at hr
    simp [factor, cur, eat, hlp, h, hr]
  · intro n
    induction n with
    | zero =>
      intro f toks e rest h
      simpa using h
    | succ n ih =>
      intro f toks e rest h
      have hlist : List.replicate (n+1) (Token.mk "RP" ")") ++ (Token.mk "RP" ")" :: rest) =
          List.replicate n (Token.mk "RP" ")") ++
            (Token.mk "RP" ")" :: (Token.mk "RP" ")" :: rest)) := by
        simp [List.replicate_succ']
      rw [hlist] at h
      have step := expr_paren_step (f + 6 * n) (List.replicate n (Token.mk "LP" "(") ++ toks)
        e (Token.mk "RP" ")" :: rest) (ih f toks e (Token.mk "RP" ")" :: rest) h) rfl
      rw [List.replicate_succ, List.cons_append, Nat.mul_succ, ← Nat.add_assoc]
      exact step

/-- Witness for C10: `factor` on `( 5 )` returns `Int 5` directly, and one
level of nesting erases over `(5))` input with the outer `)` left over. -/
theorem c10_paren_identity_witness :
    factor 8 (Token.mk "LP" "(" :: [Token.mk "INT" "5", Token.mk "RP" ")"]) =
      .ok (Expr.Int 5, ([Token.mk "RP" ")"] : List Token).tail) ∧
    expr (7 + 6 * 1)
        (List.replicate 1 (Token.mk "LP" "(") ++
          [Token.mk "INT" "5", Token.mk "RP" ")", Token.mk "RP" ")"]) =
      .ok (Expr.Int 5, Token.mk "RP" ")" :: []) :=
  ⟨c10_paren_identity.1 7 [Token.mk "INT" "5", Token.mk "RP" ")"] (Expr.Int 5)
     [Token.mk "RP" ")"] (Token.mk "LP" "(") rfl (by rfl) rfl,
   c10_paren_identity.2.1 1 7 [Token.mk "INT" "5", Token.mk "RP" ")", Token.mk "RP" ")"]
     (Expr.Int 5) [] (by rfl)⟩

end J
